import Mathlib

/-!
Shallow embedding of `src/report/s3.rs` (crater's S3 report writer):
the `S3Prefix` location parser (`FromStr` / `Display` impls) and the
`S3Writer::write_bytes` upload logic (single put vs multipart upload).

Service calls are modelled by an explicit client oracle
(`S3Client`), and a run of `write_bytes` is modelled as the list of
requests it issues together with its outcome (success, write failure,
or panic from an `unwrap`).
-/

/- ---------------------------------------------------------------
   Location parser: `S3Prefix::from_str` and `Display for S3Prefix`
   --------------------------------------------------------------- -/

/-- The host of a parsed URL, as classified by the `url` crate's `Host`
enum (`Domain`, `Ipv4`, `Ipv6`).  The Rust code only ever matches on
whether the host is a `Domain`, so the two IP forms carry no data here. -/
inductive UrlHost where
  | domain (h : String)
  | ipv4
  | ipv6
deriving DecidableEq

/-- The outcome of `Url::parse` on some input: the components the Rust
code inspects.  `port` and the other optional components are kept as
`Option String` since only their presence matters to `from_str`. -/
structure ParsedUrl where
  scheme : String
  username : String
  password : Option String
  port : Option String
  query : Option String
  fragment : Option String
  host : Option UrlHost
  path : String
deriving DecidableEq

/-- `S3Error::BadUrl` (the only variant). -/
inductive S3Error where
  | badUrl (url : String)
deriving DecidableEq

/-- `S3Prefix { bucket, prefix }`.  The `prefix: PathBuf` field is modelled
as a `String` (named `pfx`); `PathBuf::from` preserves the string and
`.display()` renders it back unchanged. -/
structure S3Prefix where
  bucket : String
  pfx : String
deriving DecidableEq

/-- `parsed.path().get(1..).map(PathBuf::from).unwrap_or_default()`:
the path with its first byte removed, or the empty string when the path
is empty.  (The `url` crate only ever yields a path that is empty or
starts with the ASCII byte `/` for host-bearing URLs, so byte index 1 is
always a character boundary.) -/
def pathTail (p : String) : String :=
  ⟨p.data.drop 1⟩

/-- The body of `S3Prefix::from_str` after `Url::parse` has succeeded:
the reject checks on lines 31–39, the host match on lines 41–45, and the
construction of the `S3Prefix` on lines 47–54 of `src/report/s3.rs`. -/
def s3PrefixFromUrl (url : String) (parsed : ParsedUrl) : Except S3Error S3Prefix :=
  if parsed.scheme ≠ "s3"
      ∨ parsed.username ≠ ""
      ∨ parsed.password.isSome
      ∨ parsed.port.isSome
      ∨ parsed.query.isSome
      ∨ parsed.fragment.isSome then
    .error (.badUrl url)
  else
    match parsed.host with
    | some (.domain host) => .ok ⟨host, pathTail parsed.path⟩
    | _ => .error (.badUrl url)

/-- `impl Display for S3Prefix`: `format!("s3://{}/{}", bucket, prefix.display())`. -/
def s3PrefixDisplay (p : S3Prefix) : String :=
  "s3://" ++ p.bucket ++ "/" ++ p.pfx

/- ---------------------------------------------------------------
   Modelled URL parser (for the parse–render round trip)
   --------------------------------------------------------------- -/

/-- Split a character list at the first occurrence of `sep`: the part
before it, and `some` the part after it (or `none` if `sep` is absent). -/
def splitFirst (sep : Char) : List Char → List Char × Option (List Char)
  | [] => ([], none)
  | c :: rest =>
    if c = sep then ([], some rest)
    else
      let r := splitFirst sep rest
      (c :: r.1, r.2)

/-- Modelled from the spec: an IPv4-literal host ("host must resolve to a
plain domain-style name (not an IP literal)") — four dot-separated
nonempty all-digit labels.  The `url` crate's exact IPv4 recognition is
external code; this model only needs to classify hosts. -/
def looksLikeIpv4 (host : List Char) : Bool :=
  let labels := host.splitOn '.'
  labels.length == 4 && labels.all fun lb => !lb.isEmpty && lb.all (·.isDigit)

/-- Modelled from the spec: how the external parser classifies a host
(domain-style name, IPv4 literal, or bracketed IPv6 literal). -/
def classifyHost (h : List Char) : Option UrlHost :=
  if h = [] then none
  else if h.head? = some '[' then some .ipv6
  else if looksLikeIpv4 h then some .ipv4
  else some (.domain ⟨h⟩)

/-- Modelled from the spec: `Url::parse` (an external crate, not part of
this repository) restricted to the spec's accepted grammar
`scheme://host[/path]` plus the components `from_str` rejects — userinfo
before `@` in the authority, a port after `:` in the host, a query after
`?`, a fragment after `#`. -/
def urlParseModel (s : String) : Option ParsedUrl :=
  let sp := splitFirst ':' s.data
  match sp.2 with
  | none => none
  | some rest =>
    match rest with
    | '/' :: '/' :: rest2 =>
      let fr := splitFirst '#' rest2
      let qu := splitFirst '?' fr.1
      let au := splitFirst '/' qu.1
      let path : String := match au.2 with
        | none => ""
        | some p => ⟨'/' :: p⟩
      let ui := splitFirst '@' au.1
      match ui.2 with
      | none =>
        let hp := splitFirst ':' au.1
        some { scheme := ⟨sp.1⟩, username := "", password := none,
               port := hp.2.map fun l => ⟨l⟩,
               query := qu.2.map fun l => ⟨l⟩,
               fragment := fr.2.map fun l => ⟨l⟩,
               host := classifyHost hp.1, path := path }
      | some hostport =>
        let up := splitFirst ':' ui.1
        let hp := splitFirst ':' hostport
        some { scheme := ⟨sp.1⟩, username := ⟨up.1⟩,
               password := up.2.map fun l => ⟨l⟩,
               port := hp.2.map fun l => ⟨l⟩,
               query := qu.2.map fun l => ⟨l⟩,
               fragment := fr.2.map fun l => ⟨l⟩,
               host := classifyHost hp.1, path := path }
    | _ => none

/-- `S3Prefix::from_str`: parse the URL (modelled), then apply the checks
of the Rust function body. -/
def s3PrefixFromStr (url : String) : Except S3Error S3Prefix :=
  match urlParseModel url with
  | none => .error (.badUrl url)
  | some parsed => s3PrefixFromUrl url parsed

/- ---------------------------------------------------------------
   The writer: `S3Writer::write_bytes`
   --------------------------------------------------------------- -/

/-- Modelled from the spec: `encoding ∈ {Plain, Gzip}`
(`crate::results::EncodingType` lives outside `src/report/s3.rs`; the
spec fixes its two variants). -/
inductive EncodingType where
  | plain
  | gzip
deriving DecidableEq

/-- A `put_object` request as `write_bytes` builds it: bucket, key,
content type, canned ACL, optional content encoding, and the body bytes
(bytes modelled as `Nat`s). -/
structure PutObjectReq where
  bucket : String
  key : String
  contentType : String
  acl : String
  contentEncoding : Option String
  body : List Nat
deriving DecidableEq

/-- A `create_multipart_upload` request as `write_bytes` builds it. -/
structure CreateMultipartUploadReq where
  bucket : String
  key : String
  contentType : String
  acl : String
  contentEncoding : Option String
deriving DecidableEq

/-- An `upload_part` request as `write_bytes` builds it. -/
structure UploadPartReq where
  bucket : String
  key : String
  uploadId : String
  partNumber : Nat
  body : List Nat
deriving DecidableEq

/-- `aws_sdk_s3::types::CompletedPart` as built on line 129–132:
a part number paired with the ETag the service returned for that part. -/
structure CompletedPart where
  partNumber : Nat
  eTag : String
deriving DecidableEq

/-- A `complete_multipart_upload` request as `write_bytes` builds it. -/
structure CompleteMultipartUploadReq where
  bucket : String
  key : String
  uploadId : String
  parts : List CompletedPart
deriving DecidableEq

/-- One service call issued by `write_bytes`, in issue order. -/
inductive S3Call where
  | putObject (r : PutObjectReq)
  | createMultipartUpload (r : CreateMultipartUploadReq)
  | uploadPart (r : UploadPartReq)
  | completeMultipartUpload (r : CompleteMultipartUploadReq)
deriving DecidableEq

/-- The fields of a `CreateMultipartUploadOutput` that `write_bytes`
reads: `upload_id()` and `key()`, both optional in the SDK. -/
structure CreateMultipartUploadResp where
  uploadId : Option String
  key : Option String
deriving DecidableEq

/-- The field of an `UploadPartOutput` that `write_bytes` reads:
`e_tag`, optional in the SDK. -/
structure UploadPartResp where
  eTag : Option String
deriving DecidableEq

/-- The injected storage client: each operation maps the request
`write_bytes` built to the service's response (`.error` = the send
failed).  One fixed oracle models one run of `write_bytes`. -/
structure S3Client where
  putObject : PutObjectReq → Except Unit Unit
  createMultipartUpload : CreateMultipartUploadReq → Except Unit CreateMultipartUploadResp
  uploadPart : UploadPartReq → Except Unit UploadPartResp
  completeMultipartUpload : CompleteMultipartUploadReq → Except Unit Unit

/-- Why a run of `write_bytes` aborted the process: the `unwrap` on
`path.as_ref().to_str()` (lines 93 and 170), or the `unwrap`s on the
optional response fields `upload_id`, `key` and `e_tag`
(lines 123, 124, 130, 148, 149). -/
inductive PanicCause where
  | pathNotText
  | missingField
deriving DecidableEq

/-- How a call to `write_bytes` ends: `Ok(())`, a `bail!` write failure,
or a panic from an `unwrap`. -/
inductive WriteOutcome where
  | ok
  | writeFailure
  | panicked (c : PanicCause)
deriving DecidableEq

/-- One run of `write_bytes`: the service calls issued, in order, and
the outcome. -/
structure RunTrace where
  calls : List S3Call
  outcome : WriteOutcome
deriving DecidableEq

/-- The multipart threshold on line 85: `50 * 1024 * 1024` bytes. -/
def multipartThreshold : Nat := 50 * 1024 * 1024

/-- The chunk size on line 110: `20 * 1024 * 1024` bytes. -/
def chunkSize : Nat := 20 * 1024 * 1024

/-- How `write_bytes` computes a request's content encoding: the
`match encoding_type` on lines 97–102 and 174–179 — `Plain` leaves the
header unset, `Gzip` sets it to `"gzip"`. -/
def contentEncodingOf : EncodingType → Option String
  | .plain => none
  | .gzip => some "gzip"

/-- The result of the part-upload `while` loop (lines 114–142):
all chunks uploaded (with the collected `CompletedPart`s), a failed
part upload (`bail!`), or a panic from an `unwrap`. -/
inductive LoopResult where
  | done (parts : List CompletedPart)
  | failed
  | panicked (c : PanicCause)
deriving DecidableEq

/-- The `while start < body.len()` loop of lines 110–142: slice the next
chunk, build the `upload_part` request (unwrapping the create response's
`upload_id` and `key`), send it, and on success append a `CompletedPart`
built from the unwrapped `e_tag`.  Returns the calls issued inside the
loop and the loop's result. -/
def uploadPartsLoop (client : S3Client) (bucket : String)
    (uploadId uploadKey : Option String) (body : List Nat)
    (start part : Nat) (parts : List CompletedPart) :
    List S3Call × LoopResult :=
  if h : start < body.length then
    let chunk := (body.drop start).take chunkSize
    match uploadId, uploadKey with
    | some uid, some k =>
      let req : UploadPartReq := ⟨bucket, k, uid, part, chunk⟩
      match client.uploadPart req with
      | .error _ => ([S3Call.uploadPart req], .failed)
      | .ok resp =>
        match resp.eTag with
        | none => ([S3Call.uploadPart req], .panicked .missingField)
        | some tag =>
          -- `start += chunk_size` (the sum is written with the constant on
          -- the left so that kernel reduction never recurses on the literal)
          let rest := uploadPartsLoop client bucket uploadId uploadKey body
            (chunkSize + start) (part + 1) (parts ++ [⟨part, tag⟩])
          (S3Call.uploadPart req :: rest.1, rest.2)
    | _, _ => ([], .panicked .missingField)
  else
    ([], .done parts)
termination_by body.length - start
decreasing_by simp only [chunkSize] at *; omega

/-- `S3Writer::write_bytes` (lines 77–187), as the trace of one run:
if the body is at least 50 MiB, create a multipart upload, run the part
loop, and complete; otherwise issue a single `put_object`.  `path` is
the result of `path.as_ref().to_str()` (`none` = not representable as
text, which the code `unwrap`s into a panic before any service call). -/
def writeBytes (bucket pfx : String) (client : S3Client)
    (path : Option String) (body : List Nat) (mime : String)
    (encodingType : EncodingType) : RunTrace :=
  if multipartThreshold ≤ body.length then
    match path with
    | none => ⟨[], .panicked .pathNotText⟩
    | some p =>
      let createReq : CreateMultipartUploadReq :=
        ⟨bucket, pfx ++ "/" ++ p, mime, "public-read", contentEncodingOf encodingType⟩
      match client.createMultipartUpload createReq with
      | .error _ => ⟨[S3Call.createMultipartUpload createReq], .writeFailure⟩
      | .ok upload =>
        let loop := uploadPartsLoop client bucket upload.uploadId upload.key body 0 1 []
        match loop.2 with
        | .failed => ⟨S3Call.createMultipartUpload createReq :: loop.1, .writeFailure⟩
        | .panicked c => ⟨S3Call.createMultipartUpload createReq :: loop.1, .panicked c⟩
        | .done parts =>
          match upload.uploadId, upload.key with
          | some uid, some k =>
            let compReq : CompleteMultipartUploadReq := ⟨bucket, k, uid, parts⟩
            match client.completeMultipartUpload compReq with
            | .ok _ =>
              ⟨S3Call.createMultipartUpload createReq ::
                (loop.1 ++ [S3Call.completeMultipartUpload compReq]), .ok⟩
            | .error _ =>
              ⟨S3Call.createMultipartUpload createReq ::
                (loop.1 ++ [S3Call.completeMultipartUpload compReq]), .writeFailure⟩
          | _, _ =>
            ⟨S3Call.createMultipartUpload createReq :: loop.1, .panicked .missingField⟩
  else
    match path with
    | none => ⟨[], .panicked .pathNotText⟩
    | some p =>
      let putReq : PutObjectReq :=
        ⟨bucket, pfx ++ "/" ++ p, mime, "public-read", contentEncodingOf encodingType, body⟩
      match client.putObject putReq with
      | .ok _ => ⟨[S3Call.putObject putReq], .ok⟩
      | .error _ => ⟨[S3Call.putObject putReq], .writeFailure⟩

/- ---------------------------------------------------------------
   Reference forms used to state the claims
   --------------------------------------------------------------- -/

/-- The body split into consecutive `chunkSize`-sized chunks, the last
one possibly smaller: the successive slices the loop takes. -/
def chunksOf (body : List Nat) : List (List Nat) :=
  if h : body = [] then []
  else body.take chunkSize :: chunksOf (body.drop chunkSize)
termination_by body.length
decreasing_by
  simp only [List.length_drop, chunkSize]
  cases body with
  | nil => exact absurd rfl h
  | cons a l => simp; omega

/-- The `upload_part` requests for a list of chunks, numbered from
`part` upward: what the loop sends when nothing fails. -/
def reqsFor (bucket uid k : String) : List (List Nat) → Nat → List UploadPartReq
  | [], _ => []
  | c :: cs, part => ⟨bucket, k, uid, part, c⟩ :: reqsFor bucket uid k cs (part + 1)

/-- The part-upload loop replayed over an explicit chunk list (used to
reason about `uploadPartsLoop` by structural induction). -/
def goChunks (client : S3Client) (bucket uid k : String) :
    List (List Nat) → Nat → List CompletedPart → List S3Call × LoopResult
  | [], _, parts => ([], .done parts)
  | c :: cs, part, parts =>
    let req : UploadPartReq := ⟨bucket, k, uid, part, c⟩
    match client.uploadPart req with
    | .error _ => ([S3Call.uploadPart req], .failed)
    | .ok resp =>
      match resp.eTag with
      | none => ([S3Call.uploadPart req], .panicked .missingField)
      | some tag =>
        let rest := goChunks client bucket uid k cs (part + 1) (parts ++ [⟨part, tag⟩])
        (S3Call.uploadPart req :: rest.1, rest.2)

/-- The `upload_part` requests among a list of calls, in order. -/
def partCallsOf (calls : List S3Call) : List UploadPartReq :=
  calls.filterMap fun c =>
    match c with
    | .uploadPart r => some r
    | _ => none

/-- The `complete_multipart_upload` requests among a list of calls. -/
def completeCallsOf (calls : List S3Call) : List CompleteMultipartUploadReq :=
  calls.filterMap fun c =>
    match c with
    | .completeMultipartUpload r => some r
    | _ => none

/-- The ETag the client returns for a part request (defaulting to `""`
when the response is an error or carries no ETag). -/
def etagOf (client : S3Client) (r : UploadPartReq) : String :=
  match client.uploadPart r with
  | .ok resp =>
    match resp.eTag with
    | some tag => tag
    | none => ""
  | .error _ => ""

/-- A client for which every operation succeeds and every optional
response field is present (used to instantiate the claims). -/
def clientAllOk : S3Client :=
  ⟨fun _ => .ok (),
   fun _ => .ok ⟨some "uid-1", some "key-1"⟩,
   fun _ => .ok ⟨some "etag-1"⟩,
   fun _ => .ok ()⟩

/-- A client whose part uploads fail exactly at part number 2
(everything else succeeds). -/
def clientFailPart2 : S3Client :=
  ⟨fun _ => .ok (),
   fun _ => .ok ⟨some "uid-1", some "key-1"⟩,
   fun r => if r.partNumber = 2 then .error () else .ok ⟨some "etag-1"⟩,
   fun _ => .ok ()⟩

/-- A client whose initiate response lacks the upload id. -/
def clientNoUploadId : S3Client :=
  ⟨fun _ => .ok (),
   fun _ => .ok ⟨none, some "key-1"⟩,
   fun _ => .ok ⟨some "etag-1"⟩,
   fun _ => .ok ()⟩

/-- A client whose response to part 1 carries no ETag. -/
def clientNoEtag : S3Client :=
  ⟨fun _ => .ok (),
   fun _ => .ok ⟨some "uid-1", some "key-1"⟩,
   fun r => if r.partNumber = 1 then .ok ⟨none⟩ else .ok ⟨some "etag-1"⟩,
   fun _ => .ok ()⟩

/- ---------------------------------------------------------------
   Lemmas about the modelled URL parser
   --------------------------------------------------------------- -/

theorem splitFirst_not_mem (sep : Char) (l : List Char) (h : sep ∉ l) :
    splitFirst sep l = (l, none) := by
  induction l with
  | nil => rfl
  | cons c rest ih =>
    simp only [List.mem_cons, not_or] at h
    have hcs : ¬c = sep := fun hc => h.1 hc.symm
    simp only [splitFirst, if_neg hcs, ih h.2]

theorem splitFirst_append (sep : Char) (a b : List Char) (h : sep ∉ a) :
    splitFirst sep (a ++ sep :: b) = (a, some b) := by
  induction a with
  | nil => simp [splitFirst]
  | cons c rest ih =>
    simp only [List.mem_cons, not_or] at h
    have hcs : ¬c = sep := fun hc => h.1 hc.symm
    simp only [List.cons_append, splitFirst, if_neg hcs, List.append_eq, ih h.2]

theorem string_data_append (s t : String) : (s ++ t).data = s.data ++ t.data := by
  cases s; cases t; rfl

/- ---------------------------------------------------------------
   Claims about the location parser
   --------------------------------------------------------------- -/

/-- C5: for every input, `S3Prefix::from_str` returns a `BadUrl` error
whenever the parsed URL has a scheme other than `"s3"`, a nonempty
username, a password, an explicit port, a query, a fragment, or an
IP-literal host — each condition alone causes failure. -/
theorem claim5_fromStr_rejects (url : String) (u : ParsedUrl)
    (h : u.scheme ≠ "s3" ∨ u.username ≠ "" ∨ u.password.isSome
      ∨ u.port.isSome ∨ u.query.isSome ∨ u.fragment.isSome
      ∨ u.host = some .ipv4 ∨ u.host = some .ipv6) :
    s3PrefixFromUrl url u = .error (.badUrl url) := by
  unfold s3PrefixFromUrl
  rcases h with h | h | h | h | h | h | h | h
  · simp [h]
  · simp [h]
  · simp [h]
  · simp [h]
  · simp [h]
  · simp [h]
  · split
    · rfl
    · rw [h]
  · split
    · rfl
    · rw [h]

/-- C5 witness: a URL whose scheme is `"https"` is rejected. -/
theorem claim5_witness :
    (let u : ParsedUrl :=
      ⟨"https", "", none, none, none, none, some (.domain "example.com"), ""⟩
     u.scheme ≠ "s3"
      ∧ s3PrefixFromUrl "https://example.com" u = .error (.badUrl "https://example.com")) :=
  ⟨by decide,
   claim5_fromStr_rejects "https://example.com"
     ⟨"https", "", none, none, none, none, some (.domain "example.com"), ""⟩
     (Or.inl (by decide))⟩

/-- C6: for every accepted input of the form `scheme://host[/path]`,
`from_str` yields a locator whose bucket is the domain host and whose
prefix is the path with its single leading separator stripped — the
empty string when the path is absent or just `"/"` — together with the
two example inputs from the spec (which go through the modelled URL
parser). -/
theorem claim6_accepted_shape :
    (∀ (url : String) (u : ParsedUrl) (host : String) (rest : List Char),
      u.scheme = "s3" → u.username = "" → u.password = none →
      u.port = none → u.query = none → u.fragment = none →
      u.host = some (.domain host) → u.path.data = '/' :: rest →
      s3PrefixFromUrl url u = .ok ⟨host, ⟨rest⟩⟩)
    ∧ (∀ (url : String) (u : ParsedUrl) (host : String),
      u.scheme = "s3" → u.username = "" → u.password = none →
      u.port = none → u.query = none → u.fragment = none →
      u.host = some (.domain host) → (u.path = "" ∨ u.path = "/") →
      s3PrefixFromUrl url u = .ok ⟨host, ""⟩)
    ∧ s3PrefixFromStr "s3://bucket-name" = .ok ⟨"bucket-name", ""⟩
    ∧ s3PrefixFromStr "s3://bucket-name/path/prefix" = .ok ⟨"bucket-name", "path/prefix"⟩ := by
  refine ⟨?_, ?_, by rfl, by rfl⟩
  · intro url u host rest hs hu hp hpo hq hf hh hpath
    simp [s3PrefixFromUrl, hs, hu, hp, hpo, hq, hf, hh, pathTail, hpath]
  · intro url u host hs hu hp hpo hq hf hh hpath
    rcases hpath with hpath | hpath <;>
      simp [s3PrefixFromUrl, hs, hu, hp, hpo, hq, hf, hh, pathTail, hpath]

/-- C6 witness: the general shape applied to the parse of
`s3://bucket-name/path/prefix`. -/
theorem claim6_witness :
    (let u : ParsedUrl :=
      ⟨"s3", "", none, none, none, none, some (.domain "bucket-name"), "/path/a"⟩
     u.scheme = "s3" ∧ u.path.data = '/' :: "path/a".data
      ∧ s3PrefixFromUrl "s3://bucket-name/path/a" u = .ok ⟨"bucket-name", "path/a"⟩) :=
  ⟨rfl, by decide,
   claim6_accepted_shape.1 "s3://bucket-name/path/a"
     ⟨"s3", "", none, none, none, none, some (.domain "bucket-name"), "/path/a"⟩
     "bucket-name" "path/a".data rfl rfl rfl rfl rfl rfl rfl (by decide)⟩

theorem splitFirst_scheme (rest : List Char) :
    splitFirst ':' ('s' :: '3' :: ':' :: rest) = (['s', '3'], some rest) := rfl

/-- C7: rendering a locator with `Display` (`s3://{bucket}/{prefix}`,
with its trailing separator when the prefix is empty) and parsing the
rendered string again yields the locator back.  The hypotheses say the
locator came from a valid input: the bucket is a nonempty domain-style
name (no reserved URL characters, not an IPv4 literal) and the prefix
carries no query or fragment characters. -/
theorem claim7_roundtrip (p : S3Prefix)
    (hb : p.bucket.data ≠ [])
    (hbc : ∀ c ∈ p.bucket.data,
      c ≠ ':' ∧ c ≠ '/' ∧ c ≠ '@' ∧ c ≠ '#' ∧ c ≠ '?' ∧ c ≠ '[')
    (hip : looksLikeIpv4 p.bucket.data = false)
    (hpc : ∀ c ∈ p.pfx.data, c ≠ '#' ∧ c ≠ '?') :
    s3PrefixFromStr (s3PrefixDisplay p) = .ok p := by
  obtain ⟨⟨bd⟩, ⟨pd⟩⟩ := p
  simp only at hb hbc hip hpc
  have hdata : (s3PrefixDisplay ⟨⟨bd⟩, ⟨pd⟩⟩).data
      = 's' :: '3' :: ':' :: '/' :: '/' :: (bd ++ '/' :: pd) := by
    have h5 : ("s3://" : String).data = ['s', '3', ':', '/', '/'] := rfl
    have h1 : ("/" : String).data = ['/'] := rfl
    simp [s3PrefixDisplay, string_data_append, h5, h1]
  have hhash : '#' ∉ bd ++ '/' :: pd := by
    intro hmem
    rcases List.mem_append.1 hmem with hmem | hmem
    · exact (hbc _ hmem).2.2.2.1 rfl
    · rcases List.mem_cons.1 hmem with hmem | hmem
      · exact absurd hmem (by decide)
      · exact (hpc _ hmem).1 rfl
  have hquest : '?' ∉ bd ++ '/' :: pd := by
    intro hmem
    rcases List.mem_append.1 hmem with hmem | hmem
    · exact (hbc _ hmem).2.2.2.2.1 rfl
    · rcases List.mem_cons.1 hmem with hmem | hmem
      · exact absurd hmem (by decide)
      · exact (hpc _ hmem).2 rfl
  have hslash : '/' ∉ bd := fun hmem => (hbc _ hmem).2.1 rfl
  have hat : '@' ∉ bd := fun hmem => (hbc _ hmem).2.2.1 rfl
  have hcolon : ':' ∉ bd := fun hmem => (hbc _ hmem).1 rfl
  have hclass : classifyHost bd = some (.domain ⟨bd⟩) := by
    have hhead : ¬bd.head? = some '[' := by
      cases bd with
      | nil => simp
      | cons c l =>
        simp only [List.head?, Option.some.injEq]
        exact fun hc => (hbc c (List.mem_cons_self c l)).2.2.2.2.2 hc
    unfold classifyHost
    rw [if_neg hb, if_neg hhead, if_neg (by simp [hip])]
  have hparse : urlParseModel (s3PrefixDisplay ⟨⟨bd⟩, ⟨pd⟩⟩)
      = some ⟨"s3", "", none, none, none, none, some (.domain ⟨bd⟩), ⟨'/' :: pd⟩⟩ := by
    simp only [urlParseModel, hdata, splitFirst_scheme]
    simp only [splitFirst_not_mem '#' _ hhash, splitFirst_not_mem '?' _ hquest,
      splitFirst_append '/' bd pd hslash, splitFirst_not_mem '@' _ hat,
      splitFirst_not_mem ':' _ hcolon, hclass]
    rfl
  rw [s3PrefixFromStr, hparse]
  simp [s3PrefixFromUrl, pathTail]

/-- C7 witness: the round trip at the locator parsed from `s3://bucket/a/b`. -/
theorem claim7_witness :
    (("bucket" : String).data ≠ []
      ∧ looksLikeIpv4 ("bucket" : String).data = false
      ∧ s3PrefixFromStr (s3PrefixDisplay ⟨"bucket", "a/b"⟩) = .ok ⟨"bucket", "a/b"⟩) :=
  ⟨by decide, by decide,
   claim7_roundtrip ⟨"bucket", "a/b"⟩ (by decide) (by decide) (by decide) (by decide)⟩

/- ---------------------------------------------------------------
   Chunking lemmas
   --------------------------------------------------------------- -/

theorem chunkSize_pos : 0 < chunkSize := by
  simp [chunkSize]

theorem chunksOf_eq_nil_iff (l : List Nat) : chunksOf l = [] ↔ l = [] := by
  constructor
  · intro h
    by_contra hne
    rw [chunksOf, dif_neg hne] at h
    exact List.cons_ne_nil _ _ h
  · intro h
    rw [h, chunksOf, dif_pos rfl]

theorem chunksOf_flatten (l : List Nat) : (chunksOf l).flatten = l := by
  induction l using chunksOf.induct with
  | case1 => simp [chunksOf]
  | case2 l h ih =>
    rw [chunksOf, dif_neg h]
    simp [ih]

theorem chunksOf_length (l : List Nat) :
    (chunksOf l).length = (l.length + chunkSize - 1) / chunkSize := by
  induction l using chunksOf.induct with
  | case1 => simp [chunksOf, chunkSize]
  | case2 l h ih =>
    rw [chunksOf, dif_neg h]
    have hpos : 0 < l.length := List.length_pos.2 h
    simp only [List.length_cons, ih, List.length_drop]
    simp only [chunkSize] at *
    omega

theorem chunksOf_dropLast_length (l : List Nat) :
    ∀ c ∈ (chunksOf l).dropLast, c.length = chunkSize := by
  induction l using chunksOf.induct with
  | case1 => simp [chunksOf]
  | case2 l h ih =>
    rw [chunksOf, dif_neg h]
    by_cases hrest : l.drop chunkSize = []
    · rw [hrest, chunksOf, dif_pos rfl]
      simp
    · have hcons : chunksOf (l.drop chunkSize) ≠ [] :=
        fun hc => hrest ((chunksOf_eq_nil_iff _).1 hc)
      intro c hc
      rw [List.dropLast_cons_of_ne_nil hcons] at hc
      rcases List.mem_cons.1 hc with hc | hc
      · subst hc
        have hlen : chunkSize ≤ l.length := by
          by_contra hlt
          exact hrest (List.drop_eq_nil_of_le (by omega))
        simp [List.length_take, Nat.min_eq_left hlen]
      · exact ih c hc

theorem chunksOf_getLast (l : List Nat) (h : l ≠ []) :
    ∃ lc, (chunksOf l).getLast? = some lc
      ∧ lc.length = (if l.length % chunkSize = 0 then chunkSize else l.length % chunkSize) := by
  induction l using chunksOf.induct with
  | case1 => exact absurd rfl h
  | case2 l hne ih =>
    rw [chunksOf, dif_neg hne]
    have hpos : 0 < l.length := List.length_pos.2 hne
    by_cases hrest : l.drop chunkSize = []
    · have hle : l.length ≤ chunkSize := by
        have := congrArg List.length hrest
        simp only [List.length_drop, List.length_nil] at this
        omega
      rw [hrest, chunksOf, dif_pos rfl]
      refine ⟨l.take chunkSize, rfl, ?_⟩
      rw [List.length_take, Nat.min_eq_right hle]
      simp only [chunkSize] at *
      split <;> omega
    · have hgt : chunkSize < l.length := by
        by_contra hle
        exact hrest (List.drop_eq_nil_of_le (by omega))
      obtain ⟨lc, hlast, hlen⟩ := ih hrest
      refine ⟨lc, ?_, ?_⟩
      · rcases hc : chunksOf (l.drop chunkSize) with _ | ⟨b, t⟩
        · exact absurd ((chunksOf_eq_nil_iff _).1 hc) hrest
        · rw [List.getLast?_cons_cons, ← hc]
          exact hlast
      · rw [List.length_drop] at hlen
        have hmod : (l.length - chunkSize) % chunkSize = l.length % chunkSize := by
          simp only [chunkSize] at *
          omega
        rw [hmod] at hlen
        exact hlen

/- ---------------------------------------------------------------
   Lemmas about the planned part requests
   --------------------------------------------------------------- -/

theorem reqsFor_length (b u k : String) :
    ∀ (cs0 : List (List Nat)) (part : Nat),
      (reqsFor b u k cs0 part).length = cs0.length := by
  intro cs0
  induction cs0 with
  | nil => intro part; rfl
  | cons c cs ih => intro part; simp [reqsFor, ih]

theorem reqsFor_map_partNumber (b u k : String) :
    ∀ (cs0 : List (List Nat)) (part : Nat),
      (reqsFor b u k cs0 part).map (fun r => r.partNumber)
        = List.range' part cs0.length := by
  intro cs0
  induction cs0 with
  | nil => intro part; rfl
  | cons c cs ih =>
    intro part
    simp [reqsFor, ih, List.range'_succ]

theorem reqsFor_map_body (b u k : String) :
    ∀ (cs0 : List (List Nat)) (part : Nat),
      (reqsFor b u k cs0 part).map (fun r => r.body) = cs0 := by
  intro cs0
  induction cs0 with
  | nil => intro part; rfl
  | cons c cs ih => intro part; simp [reqsFor, ih]

theorem reqsFor_mem (b u k : String) :
    ∀ (cs0 : List (List Nat)) (part : Nat) (r : UploadPartReq),
      r ∈ reqsFor b u k cs0 part →
      r.bucket = b ∧ r.key = k ∧ r.uploadId = u
        ∧ part ≤ r.partNumber ∧ r.partNumber < part + cs0.length := by
  intro cs0
  induction cs0 with
  | nil => intro part r hr; exact absurd hr (List.not_mem_nil r)
  | cons c cs ih =>
    intro part r hr
    rcases List.mem_cons.1 hr with hr | hr
    · subst hr
      exact ⟨rfl, rfl, rfl, Nat.le_refl _, by simp⟩
    · obtain ⟨h1, h2, h3, h4, h5⟩ := ih (part + 1) r hr
      exact ⟨h1, h2, h3, by omega, by simp only [List.length_cons]; omega⟩

theorem reqsFor_take_mem (b u k : String) :
    ∀ (cs0 : List (List Nat)) (part n : Nat) (r : UploadPartReq),
      r ∈ (reqsFor b u k cs0 part).take n →
      part ≤ r.partNumber ∧ r.partNumber < part + n := by
  intro cs0
  induction cs0 with
  | nil =>
    intro part n r hr
    simp [reqsFor] at hr
  | cons c cs ih =>
    intro part n r hr
    cases n with
    | zero => simp at hr
    | succ m =>
      rw [reqsFor, List.take_succ_cons] at hr
      rcases List.mem_cons.1 hr with hr | hr
      · subst hr
        refine ⟨Nat.le_refl _, ?_⟩
        show part < part + (m + 1)
        omega
      · obtain ⟨h1, h2⟩ := ih (part + 1) m r hr
        exact ⟨by omega, by omega⟩

/- ---------------------------------------------------------------
   The part-upload loop replayed over chunks
   --------------------------------------------------------------- -/

theorem uploadPartsLoop_eq_goChunks (client : S3Client) (bucket uid k : String) :
    ∀ (n : Nat) (body : List Nat) (start part : Nat) (parts : List CompletedPart),
      body.length - start ≤ n →
      uploadPartsLoop client bucket (some uid) (some k) body start part parts
        = goChunks client bucket uid k (chunksOf (body.drop start)) part parts := by
  intro n
  induction n with
  | zero =>
    intro body start part parts hn
    have hge : body.length ≤ start := by omega
    rw [uploadPartsLoop, dif_neg (by omega), List.drop_eq_nil_of_le hge,
      chunksOf, dif_pos rfl]
    rfl
  | succ m ih =>
    intro body start part parts hn
    by_cases hlt : start < body.length
    · have hne : body.drop start ≠ [] := by
        intro h0
        have := congrArg List.length h0
        simp only [List.length_drop, List.length_nil] at this
        omega
      rw [uploadPartsLoop, dif_pos hlt, chunksOf, dif_neg hne]
      rw [goChunks]
      cases hcl : client.uploadPart ⟨bucket, k, uid, part, (body.drop start).take chunkSize⟩ with
      | error e => simp [hcl]
      | ok resp =>
        cases hherm : resp.eTag with
        | none => simp [hcl, hherm]
        | some tag =>
          have hrec := ih body (chunkSize + start) (part + 1) (parts ++ [⟨part, tag⟩])
            (by simp only [chunkSize] at *; omega)
          simp only [hcl, hherm, hrec, List.drop_drop]
          rw [Nat.add_comm start chunkSize]
    · rw [uploadPartsLoop, dif_neg hlt, List.drop_eq_nil_of_le (by omega),
        chunksOf, dif_pos rfl]
      rfl

theorem goChunks_calls (client : S3Client) (b u k : String) :
    ∀ (cs0 : List (List Nat)) (part : Nat) (parts : List CompletedPart)
      (c : S3Call), c ∈ (goChunks client b u k cs0 part parts).1 →
      ∃ r, c = S3Call.uploadPart r ∧ r ∈ reqsFor b u k cs0 part := by
  intro cs0
  induction cs0 with
  | nil => intro part parts c hc; exact absurd hc (List.not_mem_nil c)
  | cons ch cs ih =>
    intro part parts c hc
    rw [goChunks] at hc
    rcases hcl : client.uploadPart ⟨b, k, u, part, ch⟩ with e | resp
    · simp only [hcl, List.mem_singleton] at hc
      exact ⟨_, hc, List.mem_cons_self _ _⟩
    · rcases hherm : resp.eTag with _ | tag
      · simp only [hcl, hherm, List.mem_singleton] at hc
        exact ⟨_, hc, List.mem_cons_self _ _⟩
      · simp only [hcl, hherm, List.mem_cons] at hc
        rcases hc with hc | hc
        · exact ⟨_, hc, List.mem_cons_self _ _⟩
        · obtain ⟨r, hcr, hrmem⟩ := ih (part + 1) (parts ++ [⟨part, tag⟩]) c hc
          exact ⟨r, hcr, List.mem_cons_of_mem _ hrmem⟩

theorem goChunks_succ (client : S3Client) (b u k : String)
    (etagF : UploadPartReq → String)
    (hsucc : ∀ r, client.uploadPart r = .ok ⟨some (etagF r)⟩) :
    ∀ (cs0 : List (List Nat)) (part : Nat) (parts : List CompletedPart),
      goChunks client b u k cs0 part parts
        = ((reqsFor b u k cs0 part).map S3Call.uploadPart,
           .done (parts ++ (reqsFor b u k cs0 part).map
             fun r => ⟨r.partNumber, etagF r⟩)) := by
  intro cs0
  induction cs0 with
  | nil => intro part parts; simp [goChunks, reqsFor]
  | cons ch cs ih =>
    intro part parts
    rw [goChunks]
    simp only [hsucc ⟨b, k, u, part, ch⟩]
    simp only [reqsFor, List.map_cons, ih (part + 1) (parts ++ [⟨part, _⟩])]
    simp

theorem partCallsOf_nil : partCallsOf [] = [] := rfl

theorem partCallsOf_cons_upload (r : UploadPartReq) (rest : List S3Call) :
    partCallsOf (S3Call.uploadPart r :: rest) = r :: partCallsOf rest := by
  simp [partCallsOf]

theorem goChunks_done_iff (client : S3Client) (b u k : String) :
    ∀ (cs0 : List (List Nat)) (part : Nat) (parts : List CompletedPart),
      (∃ ps, (goChunks client b u k cs0 part parts).2 = .done ps)
        ↔ (∀ r ∈ partCallsOf (goChunks client b u k cs0 part parts).1,
            ∃ t, client.uploadPart r = .ok ⟨some t⟩) := by
  intro cs0
  induction cs0 with
  | nil =>
    intro part parts
    simp [goChunks, partCallsOf]
  | cons ch cs ih =>
    intro part parts
    rw [goChunks]
    rcases hcl : client.uploadPart ⟨b, k, u, part, ch⟩ with e | resp
    · simp only [hcl, partCallsOf_cons_upload, partCallsOf_nil]
      constructor
      · rintro ⟨ps, hps⟩; exact absurd hps (by simp)
      · intro hall
        obtain ⟨t, ht⟩ := hall ⟨b, k, u, part, ch⟩ (by simp)
        rw [hcl] at ht
        exact absurd ht (by simp)
    · rcases hherm : resp.eTag with _ | tag
      · simp only [hcl, hherm, partCallsOf_cons_upload, partCallsOf_nil]
        constructor
        · rintro ⟨ps, hps⟩; exact absurd hps (by simp)
        · intro hall
          obtain ⟨t, ht⟩ := hall ⟨b, k, u, part, ch⟩ (by simp)
          rw [hcl] at ht
          obtain ⟨e⟩ := resp
          simp only [Except.ok.injEq, UploadPartResp.mk.injEq] at ht
          have hn : e = none := hherm
          rw [hn] at ht
          exact absurd ht (by simp)
      · simp only [hcl, hherm, partCallsOf_cons_upload]
        constructor
        · rintro ⟨ps, hps⟩
          intro r hr
          rcases List.mem_cons.1 hr with hr | hr
          · subst hr
            refine ⟨tag, ?_⟩
            rw [hcl]
            obtain ⟨e⟩ := resp
            have he : e = some tag := hherm
            rw [he]
          · exact ((ih (part + 1) (parts ++ [⟨part, tag⟩])).1 ⟨ps, hps⟩) r hr
        · intro hall
          have hrest := fun r hr => hall r (List.mem_cons_of_mem _ hr)
          exact (ih (part + 1) (parts ++ [⟨part, tag⟩])).2 hrest

theorem completeCallsOf_nil : completeCallsOf [] = [] := rfl

theorem completeCallsOf_cons_upload (r : UploadPartReq) (rest : List S3Call) :
    completeCallsOf (S3Call.uploadPart r :: rest) = completeCallsOf rest := by
  simp [completeCallsOf]

theorem goChunks_fail (client : S3Client) (b u k : String) (j : Nat)
    (hsucc : ∀ r : UploadPartReq, r.partNumber < j →
      ∃ t, client.uploadPart r = .ok ⟨some t⟩)
    (hfail : ∀ r : UploadPartReq, r.partNumber = j →
      client.uploadPart r = .error ()) :
    ∀ (cs0 : List (List Nat)) (part : Nat) (parts : List CompletedPart),
      part ≤ j → j < part + cs0.length →
      goChunks client b u k cs0 part parts
        = (((reqsFor b u k cs0 part).take (j + 1 - part)).map S3Call.uploadPart,
           .failed) := by
  intro cs0
  induction cs0 with
  | nil =>
    intro part parts hj1 hj2
    simp only [List.length_nil] at hj2
    omega
  | cons ch cs ih =>
    intro part parts hj1 hj2
    rw [goChunks]
    by_cases hpj : part = j
    · subst hpj
      rw [hfail ⟨b, k, u, part, ch⟩ rfl]
      have htake : part + 1 - part = 1 := by omega
      rw [htake, reqsFor]
      simp
    · have hlt : part < j := by omega
      obtain ⟨t, ht⟩ := hsucc ⟨b, k, u, part, ch⟩ hlt
      simp only [ht]
      have hrec := ih (part + 1) (parts ++ [⟨part, t⟩]) (by omega)
        (by simp only [List.length_cons] at hj2; omega)
      simp only [hrec]
      have htake : j + 1 - part = (j + 1 - (part + 1)) + 1 := by omega
      rw [htake, reqsFor, List.take_succ_cons]
      simp

theorem goChunks_etagNone (client : S3Client) (b u k : String) (j : Nat)
    (hsucc : ∀ r : UploadPartReq, r.partNumber < j →
      ∃ t, client.uploadPart r = .ok ⟨some t⟩)
    (hnone : ∀ r : UploadPartReq, r.partNumber = j →
      client.uploadPart r = .ok ⟨none⟩) :
    ∀ (cs0 : List (List Nat)) (part : Nat) (parts : List CompletedPart),
      part ≤ j → j < part + cs0.length →
      (goChunks client b u k cs0 part parts).2 = .panicked .missingField := by
  intro cs0
  induction cs0 with
  | nil =>
    intro part parts hj1 hj2
    simp only [List.length_nil] at hj2
    omega
  | cons ch cs ih =>
    intro part parts hj1 hj2
    rw [goChunks]
    by_cases hpj : part = j
    · subst hpj
      rw [hnone ⟨b, k, u, part, ch⟩ rfl]
    · have hlt : part < j := by omega
      obtain ⟨t, ht⟩ := hsucc ⟨b, k, u, part, ch⟩ hlt
      simp only [ht]
      exact ih (part + 1) (parts ++ [⟨part, t⟩]) (by omega)
        (by simp only [List.length_cons] at hj2; omega)

theorem uploadPartsLoop_no_pathPanic (client : S3Client) (bucket : String) :
    ∀ (n : Nat) (uploadId uploadKey : Option String) (body : List Nat)
      (start part : Nat) (parts : List CompletedPart),
      body.length - start ≤ n →
      (uploadPartsLoop client bucket uploadId uploadKey body start part parts).2
        ≠ .panicked .pathNotText := by
  intro n
  induction n with
  | zero =>
    intro uploadId uploadKey body start part parts hn
    rw [uploadPartsLoop, dif_neg (by omega)]
    simp
  | succ m ih =>
    intro uploadId uploadKey body start part parts hn
    by_cases hlt : start < body.length
    · rw [uploadPartsLoop, dif_pos hlt]
      rcases uploadId with _ | uid
      · simp
      rcases uploadKey with _ | k
      · simp
      rcases hcl : client.uploadPart ⟨bucket, k, uid, part,
          (body.drop start).take chunkSize⟩ with e | resp
      · simp [hcl]
      · rcases hherm : resp.eTag with _ | tag
        · simp [hcl, hherm]
        · simp only [hcl, hherm]
          exact ih (some uid) (some k) body (chunkSize + start) (part + 1)
            (parts ++ [⟨part, tag⟩]) (by simp only [chunkSize] at *; omega)
    · rw [uploadPartsLoop, dif_neg hlt]
      simp

theorem uploadPartsLoop_calls (client : S3Client) (bucket : String) :
    ∀ (n : Nat) (uploadId uploadKey : Option String) (body : List Nat)
      (start part : Nat) (parts : List CompletedPart) (c : S3Call),
      body.length - start ≤ n →
      c ∈ (uploadPartsLoop client bucket uploadId uploadKey body start part parts).1 →
      ∃ r, c = S3Call.uploadPart r := by
  intro n
  induction n with
  | zero =>
    intro uploadId uploadKey body start part parts c hn hc
    rw [uploadPartsLoop, dif_neg (by omega)] at hc
    exact absurd hc (List.not_mem_nil c)
  | succ m ih =>
    intro uploadId uploadKey body start part parts c hn hc
    by_cases hlt : start < body.length
    · rw [uploadPartsLoop, dif_pos hlt] at hc
      rcases uploadId with _ | uid
      · exact absurd hc (List.not_mem_nil c)
      rcases uploadKey with _ | k
      · exact absurd hc (List.not_mem_nil c)
      rcases hcl : client.uploadPart ⟨bucket, k, uid, part,
          (body.drop start).take chunkSize⟩ with e | resp
      · simp only [hcl, List.mem_singleton] at hc
        exact ⟨_, hc⟩
      · rcases hherm : resp.eTag with _ | tag
        · simp only [hcl, hherm, List.mem_singleton] at hc
          exact ⟨_, hc⟩
        · simp only [hcl, hherm, List.mem_cons] at hc
          rcases hc with hc | hc
          · exact ⟨_, hc⟩
          · exact ih (some uid) (some k) body (chunkSize + start) (part + 1)
              (parts ++ [⟨part, tag⟩]) c (by simp only [chunkSize] at *; omega) hc
    · rw [uploadPartsLoop, dif_neg hlt] at hc
      exact absurd hc (List.not_mem_nil c)

/- ---------------------------------------------------------------
   Branch characterizations of `writeBytes`
   --------------------------------------------------------------- -/

theorem writeBytes_path_none (bucket pfx : String) (client : S3Client)
    (body : List Nat) (mime : String) (enc : EncodingType) :
    writeBytes bucket pfx client none body mime enc = ⟨[], .panicked .pathNotText⟩ := by
  rw [writeBytes]
  split <;> rfl

theorem writeBytes_single (bucket pfx : String) (client : S3Client) (p : String)
    (body : List Nat) (mime : String) (enc : EncodingType)
    (hlen : body.length < multipartThreshold) :
    writeBytes bucket pfx client (some p) body mime enc
      = (let putReq : PutObjectReq :=
           ⟨bucket, pfx ++ "/" ++ p, mime, "public-read", contentEncodingOf enc, body⟩
         match client.putObject putReq with
         | .ok _ => ⟨[S3Call.putObject putReq], .ok⟩
         | .error _ => ⟨[S3Call.putObject putReq], .writeFailure⟩) := by
  rw [writeBytes, if_neg (by omega)]

theorem writeBytes_create_err (bucket pfx : String) (client : S3Client) (p : String)
    (body : List Nat) (mime : String) (enc : EncodingType)
    (hlen : multipartThreshold ≤ body.length)
    (hcreate : client.createMultipartUpload
        ⟨bucket, pfx ++ "/" ++ p, mime, "public-read", contentEncodingOf enc⟩
      = .error ()) :
    writeBytes bucket pfx client (some p) body mime enc
      = ⟨[S3Call.createMultipartUpload
           ⟨bucket, pfx ++ "/" ++ p, mime, "public-read", contentEncodingOf enc⟩],
         .writeFailure⟩ := by
  rw [writeBytes, if_pos hlen]
  simp only [hcreate]

theorem writeBytes_multi_ok (bucket pfx : String) (client : S3Client) (p : String)
    (body : List Nat) (mime : String) (enc : EncodingType)
    (resp : CreateMultipartUploadResp)
    (hlen : multipartThreshold ≤ body.length)
    (hcreate : client.createMultipartUpload
        ⟨bucket, pfx ++ "/" ++ p, mime, "public-read", contentEncodingOf enc⟩
      = .ok resp) :
    writeBytes bucket pfx client (some p) body mime enc
      = (let createReq : CreateMultipartUploadReq :=
           ⟨bucket, pfx ++ "/" ++ p, mime, "public-read", contentEncodingOf enc⟩
         let loop := uploadPartsLoop client bucket resp.uploadId resp.key body 0 1 []
         match loop.2 with
         | .failed => ⟨S3Call.createMultipartUpload createReq :: loop.1, .writeFailure⟩
         | .panicked c => ⟨S3Call.createMultipartUpload createReq :: loop.1, .panicked c⟩
         | .done parts =>
           match resp.uploadId, resp.key with
           | some uid, some k =>
             let compReq : CompleteMultipartUploadReq := ⟨bucket, k, uid, parts⟩
             match client.completeMultipartUpload compReq with
             | .ok _ =>
               ⟨S3Call.createMultipartUpload createReq ::
                 (loop.1 ++ [S3Call.completeMultipartUpload compReq]), .ok⟩
             | .error _ =>
               ⟨S3Call.createMultipartUpload createReq ::
                 (loop.1 ++ [S3Call.completeMultipartUpload compReq]), .writeFailure⟩
           | _, _ =>
             ⟨S3Call.createMultipartUpload createReq :: loop.1, .panicked .missingField⟩) := by
  rw [writeBytes, if_pos hlen]
  simp only [hcreate]

theorem writeBytes_multi_ok_some (bucket pfx : String) (client : S3Client) (p : String)
    (body : List Nat) (mime : String) (enc : EncodingType) (uid okey : String)
    (hlen : multipartThreshold ≤ body.length)
    (hcreate : client.createMultipartUpload
        ⟨bucket, pfx ++ "/" ++ p, mime, "public-read", contentEncodingOf enc⟩
      = .ok ⟨some uid, some okey⟩) :
    writeBytes bucket pfx client (some p) body mime enc
      = (let createReq : CreateMultipartUploadReq :=
           ⟨bucket, pfx ++ "/" ++ p, mime, "public-read", contentEncodingOf enc⟩
         let loop := goChunks client bucket uid okey (chunksOf body) 1 []
         match loop.2 with
         | .failed => ⟨S3Call.createMultipartUpload createReq :: loop.1, .writeFailure⟩
         | .panicked c => ⟨S3Call.createMultipartUpload createReq :: loop.1, .panicked c⟩
         | .done parts =>
           let compReq : CompleteMultipartUploadReq := ⟨bucket, okey, uid, parts⟩
           match client.completeMultipartUpload compReq with
           | .ok _ =>
             ⟨S3Call.createMultipartUpload createReq ::
               (loop.1 ++ [S3Call.completeMultipartUpload compReq]), .ok⟩
           | .error _ =>
             ⟨S3Call.createMultipartUpload createReq ::
               (loop.1 ++ [S3Call.completeMultipartUpload compReq]), .writeFailure⟩) := by
  rw [writeBytes_multi_ok bucket pfx client p body mime enc ⟨some uid, some okey⟩ hlen hcreate]
  simp only
  rw [uploadPartsLoop_eq_goChunks client bucket uid okey body.length body 0 1 [] (by omega),
    List.drop_zero]

theorem partCallsOf_cons_create (r : CreateMultipartUploadReq) (rest : List S3Call) :
    partCallsOf (S3Call.createMultipartUpload r :: rest) = partCallsOf rest := by
  simp [partCallsOf]

theorem partCallsOf_cons_complete (r : CompleteMultipartUploadReq) (rest : List S3Call) :
    partCallsOf (S3Call.completeMultipartUpload r :: rest) = partCallsOf rest := by
  simp [partCallsOf]

theorem partCallsOf_append (l1 l2 : List S3Call) :
    partCallsOf (l1 ++ l2) = partCallsOf l1 ++ partCallsOf l2 := by
  simp [partCallsOf, List.filterMap_append]

theorem partCallsOf_map_upload (rs : List UploadPartReq) :
    partCallsOf (rs.map S3Call.uploadPart) = rs := by
  induction rs with
  | nil => rfl
  | cons r rest ih => simp only [List.map_cons, partCallsOf_cons_upload, ih]

theorem completeCallsOf_cons_create (r : CreateMultipartUploadReq) (rest : List S3Call) :
    completeCallsOf (S3Call.createMultipartUpload r :: rest) = completeCallsOf rest := by
  simp [completeCallsOf]

theorem completeCallsOf_cons_complete (r : CompleteMultipartUploadReq) (rest : List S3Call) :
    completeCallsOf (S3Call.completeMultipartUpload r :: rest)
      = r :: completeCallsOf rest := by
  simp [completeCallsOf]

theorem completeCallsOf_append (l1 l2 : List S3Call) :
    completeCallsOf (l1 ++ l2) = completeCallsOf l1 ++ completeCallsOf l2 := by
  simp [completeCallsOf, List.filterMap_append]

theorem completeCallsOf_map_upload (rs : List UploadPartReq) :
    completeCallsOf (rs.map S3Call.uploadPart) = [] := by
  induction rs with
  | nil => rfl
  | cons r rest ih => simp only [List.map_cons, completeCallsOf_cons_upload, ih]

theorem goChunks_done (client : S3Client) (b u k : String) :
    ∀ (cs0 : List (List Nat)) (part : Nat) (parts ps : List CompletedPart),
      (goChunks client b u k cs0 part parts).2 = .done ps →
      (goChunks client b u k cs0 part parts).1
          = (reqsFor b u k cs0 part).map S3Call.uploadPart
        ∧ ps = parts ++ (reqsFor b u k cs0 part).map
            (fun r => ⟨r.partNumber, etagOf client r⟩) := by
  intro cs0
  induction cs0 with
  | nil =>
    intro part parts ps hdone
    simp only [goChunks] at hdone ⊢
    cases hdone
    simp [reqsFor]
  | cons ch cs ih =>
    intro part parts ps hdone
    rw [goChunks] at hdone ⊢
    rcases hcl : client.uploadPart ⟨b, k, u, part, ch⟩ with e | resp
    · simp only [hcl] at hdone
      exact absurd hdone (by simp)
    · rcases hherm : resp.eTag with _ | tag
      · simp only [hcl, hherm] at hdone
        exact absurd hdone (by simp)
      · simp only [hcl, hherm] at hdone ⊢
        obtain ⟨hcalls, hps⟩ := ih (part + 1) (parts ++ [⟨part, tag⟩]) ps hdone
        have hetag : etagOf client ⟨b, k, u, part, ch⟩ = tag := by
          simp only [etagOf, hcl, hherm]
        constructor
        · rw [hcalls, reqsFor]
          simp
        · rw [hps, reqsFor]
          simp [hetag]

theorem writeBytes_multi_calls (bucket pfx : String) (client : S3Client) (p : String)
    (body : List Nat) (mime : String) (enc : EncodingType)
    (hlen : multipartThreshold ≤ body.length) :
    ∃ rest, (writeBytes bucket pfx client (some p) body mime enc).calls
        = S3Call.createMultipartUpload
            ⟨bucket, pfx ++ "/" ++ p, mime, "public-read", contentEncodingOf enc⟩ :: rest
      ∧ ∀ c ∈ rest, (∃ r, c = S3Call.uploadPart r)
          ∨ ∃ r, c = S3Call.completeMultipartUpload r := by
  rcases hcreate : client.createMultipartUpload
      ⟨bucket, pfx ++ "/" ++ p, mime, "public-read", contentEncodingOf enc⟩ with e | resp
  · cases e
    rw [writeBytes_create_err bucket pfx client p body mime enc hlen hcreate]
    exact ⟨[], rfl, by simp⟩
  · rw [writeBytes_multi_ok bucket pfx client p body mime enc resp hlen hcreate]
    simp only
    have hcall : ∀ c ∈ (uploadPartsLoop client bucket resp.uploadId resp.key body 0 1 []).1,
        ∃ r, c = S3Call.uploadPart r :=
      fun c hc => uploadPartsLoop_calls client bucket body.length resp.uploadId resp.key
        body 0 1 [] c (by omega) hc
    rcases hloop : (uploadPartsLoop client bucket resp.uploadId resp.key body 0 1 []).2
      with ps | _ | c
    · simp only [hloop]
      rcases resp with ⟨uidO, keyO⟩
      rcases uidO with _ | uid
      · exact ⟨_, rfl, fun c hc => Or.inl (hcall c hc)⟩
      rcases keyO with _ | okey
      · exact ⟨_, rfl, fun c hc => Or.inl (hcall c hc)⟩
      rcases hcomp : client.completeMultipartUpload ⟨bucket, okey, uid, ps⟩ with e | u
      · simp only [hcomp]
        refine ⟨_, rfl, ?_⟩
        intro c hc
        rcases List.mem_append.1 hc with hc | hc
        · exact Or.inl (hcall c hc)
        · simp only [List.mem_singleton] at hc
          exact Or.inr ⟨_, hc⟩
      · simp only [hcomp]
        refine ⟨_, rfl, ?_⟩
        intro c hc
        rcases List.mem_append.1 hc with hc | hc
        · exact Or.inl (hcall c hc)
        · simp only [List.mem_singleton] at hc
          exact Or.inr ⟨_, hc⟩
    · simp only [hloop]
      exact ⟨_, rfl, fun c hc => Or.inl (hcall c hc)⟩
    · simp only [hloop]
      exact ⟨_, rfl, fun c hc => Or.inl (hcall c hc)⟩

/- ---------------------------------------------------------------
   Claims about the writer
   --------------------------------------------------------------- -/

/-- C1: bodies of at least 50 MiB take the multipart path (the first
call is `create_multipart_upload` and no `put_object` is ever issued);
smaller bodies take the single-put path (exactly one `put_object` call
and nothing else); in particular 50 MiB − 1 single-puts and exactly
50 MiB multiparts. -/
theorem claim1_strategy_selection :
    (∀ (bucket pfx : String) (client : S3Client) (p : String) (body : List Nat)
      (mime : String) (enc : EncodingType), 50 * 1024 * 1024 ≤ body.length →
      (∃ r rest, (writeBytes bucket pfx client (some p) body mime enc).calls
          = S3Call.createMultipartUpload r :: rest)
        ∧ ∀ r, S3Call.putObject r ∉ (writeBytes bucket pfx client (some p) body mime enc).calls)
    ∧ (∀ (bucket pfx : String) (client : S3Client) (p : String) (body : List Nat)
      (mime : String) (enc : EncodingType), body.length < 50 * 1024 * 1024 →
      ∃ r, (writeBytes bucket pfx client (some p) body mime enc).calls
        = [S3Call.putObject r])
    ∧ (∀ (bucket pfx : String) (client : S3Client) (p : String) (body : List Nat)
      (mime : String) (enc : EncodingType), body.length = 50 * 1024 * 1024 - 1 →
      ∃ r, (writeBytes bucket pfx client (some p) body mime enc).calls
        = [S3Call.putObject r])
    ∧ (∀ (bucket pfx : String) (client : S3Client) (p : String) (body : List Nat)
      (mime : String) (enc : EncodingType), body.length = 50 * 1024 * 1024 →
      ∃ r rest, (writeBytes bucket pfx client (some p) body mime enc).calls
        = S3Call.createMultipartUpload r :: rest) := by
  have hmulti : ∀ (bucket pfx : String) (client : S3Client) (p : String) (body : List Nat)
      (mime : String) (enc : EncodingType), 50 * 1024 * 1024 ≤ body.length →
      (∃ r rest, (writeBytes bucket pfx client (some p) body mime enc).calls
          = S3Call.createMultipartUpload r :: rest)
        ∧ ∀ r, S3Call.putObject r ∉ (writeBytes bucket pfx client (some p) body mime enc).calls := by
    intro bucket pfx client p body mime enc hlen
    obtain ⟨rest, hcalls, hrest⟩ :=
      writeBytes_multi_calls bucket pfx client p body mime enc hlen
    refine ⟨⟨_, rest, hcalls⟩, ?_⟩
    intro r hr
    rw [hcalls] at hr
    rcases List.mem_cons.1 hr with hr | hr
    · exact absurd hr (by simp)
    · rcases hrest _ hr with ⟨r2, hr2⟩ | ⟨r2, hr2⟩ <;> simp at hr2
  have hsingle : ∀ (bucket pfx : String) (client : S3Client) (p : String) (body : List Nat)
      (mime : String) (enc : EncodingType), body.length < 50 * 1024 * 1024 →
      ∃ r, (writeBytes bucket pfx client (some p) body mime enc).calls
        = [S3Call.putObject r] := by
    intro bucket pfx client p body mime enc hlen
    rw [writeBytes_single bucket pfx client p body mime enc hlen]
    simp only
    rcases hput : client.putObject
        ⟨bucket, pfx ++ "/" ++ p, mime, "public-read", contentEncodingOf enc, body⟩
      with e | u
    · simp only [hput]
      exact ⟨_, rfl⟩
    · simp only [hput]
      exact ⟨_, rfl⟩
  refine ⟨hmulti, hsingle, ?_, ?_⟩
  · intro bucket pfx client p body mime enc hlen
    exact hsingle bucket pfx client p body mime enc (by omega)
  · intro bucket pfx client p body mime enc hlen
    exact (hmulti bucket pfx client p body mime enc (by omega)).1

/-- C1 witness: the strategy selection applied at a 50 MiB body and at a
one-byte body. -/
theorem claim1_witness :
    (50 * 1024 * 1024 ≤ (List.replicate (50 * 1024 * 1024) (0 : Nat)).length
      ∧ (∃ r rest,
          (writeBytes "b" "pre" clientAllOk (some "path") (List.replicate (50 * 1024 * 1024) (0 : Nat)) "text/html" .plain).calls
            = S3Call.createMultipartUpload r :: rest))
    ∧ (([0] : List Nat).length < 50 * 1024 * 1024
      ∧ ∃ r, (writeBytes "b" "pre" clientAllOk (some "path") [0] "text/html" .plain).calls
          = [S3Call.putObject r]) :=
  ⟨⟨by rw [List.length_replicate],
    ((claim1_strategy_selection.1 "b" "pre" clientAllOk "path"
      (List.replicate (50 * 1024 * 1024) (0 : Nat)) "text/html" .plain)
      (by rw [List.length_replicate])).1⟩,
   by norm_num,
   claim1_strategy_selection.2.1 "b" "pre" clientAllOk "path" [0] "text/html" .plain
     (by norm_num)⟩

/-- C8: on both paths the create request targets key `{prefix}/{path}`,
carries the public-read ACL and the caller's content type, and carries
`Content-Encoding: gzip` exactly when the encoding is `Gzip` (and no
content encoding exactly when it is `Plain`). -/
theorem claim8_request_metadata :
    (∀ (bucket pfx : String) (client : S3Client) (p : String) (body : List Nat)
      (mime : String) (enc : EncodingType), body.length < 50 * 1024 * 1024 →
      ∃ r, (writeBytes bucket pfx client (some p) body mime enc).calls
          = [S3Call.putObject r]
        ∧ r.key = pfx ++ "/" ++ p ∧ r.acl = "public-read" ∧ r.contentType = mime
        ∧ (r.contentEncoding = some "gzip" ↔ enc = .gzip)
        ∧ (r.contentEncoding = none ↔ enc = .plain))
    ∧ (∀ (bucket pfx : String) (client : S3Client) (p : String) (body : List Nat)
      (mime : String) (enc : EncodingType), 50 * 1024 * 1024 ≤ body.length →
      ∃ r rest, (writeBytes bucket pfx client (some p) body mime enc).calls
          = S3Call.createMultipartUpload r :: rest
        ∧ r.key = pfx ++ "/" ++ p ∧ r.acl = "public-read" ∧ r.contentType = mime
        ∧ (r.contentEncoding = some "gzip" ↔ enc = .gzip)
        ∧ (r.contentEncoding = none ↔ enc = .plain)) := by
  constructor
  · intro bucket pfx client p body mime enc hlen
    rw [writeBytes_single bucket pfx client p body mime enc hlen]
    simp only
    rcases hput : client.putObject
        ⟨bucket, pfx ++ "/" ++ p, mime, "public-read", contentEncodingOf enc, body⟩
      with e | u <;>
      [skip; skip] <;>
      · simp only [hput]
        refine ⟨_, rfl, rfl, rfl, rfl, ?_, ?_⟩ <;>
          cases enc <;> simp [contentEncodingOf]
  · intro bucket pfx client p body mime enc hlen
    obtain ⟨rest, hcalls, _⟩ :=
      writeBytes_multi_calls bucket pfx client p body mime enc hlen
    refine ⟨_, rest, hcalls, rfl, rfl, rfl, ?_, ?_⟩ <;>
      cases enc <;> simp [contentEncodingOf]

/-- C8 witness: the metadata facts at a small gzip-encoded body. -/
theorem claim8_witness :
    (([0] : List Nat).length < 50 * 1024 * 1024
      ∧ ∃ r, (writeBytes "b" "pre" clientAllOk (some "path") [0] "text" .gzip).calls
          = [S3Call.putObject r]
        ∧ r.key = "pre" ++ "/" ++ "path" ∧ r.acl = "public-read" ∧ r.contentType = "text"
        ∧ (r.contentEncoding = some "gzip" ↔ EncodingType.gzip = .gzip)
        ∧ (r.contentEncoding = none ↔ EncodingType.gzip = .plain)) :=
  ⟨by norm_num,
   claim8_request_metadata.1 "b" "pre" clientAllOk "path" [0] "text" .gzip (by norm_num)⟩

/-- C9: when the path is representable as text, the panic of the
path-to-text `unwrap` is unreachable on both paths; when it is not,
`write_bytes` panics there before issuing any call. -/
theorem claim9_path_unwrap :
    (∀ (bucket pfx : String) (client : S3Client) (p : String) (body : List Nat)
      (mime : String) (enc : EncodingType),
      (writeBytes bucket pfx client (some p) body mime enc).outcome
        ≠ .panicked .pathNotText)
    ∧ (∀ (bucket pfx : String) (client : S3Client) (body : List Nat)
      (mime : String) (enc : EncodingType),
      writeBytes bucket pfx client none body mime enc
        = ⟨[], .panicked .pathNotText⟩) := by
  constructor
  · intro bucket pfx client p body mime enc
    by_cases hlen : multipartThreshold ≤ body.length
    · rcases hcreate : client.createMultipartUpload
          ⟨bucket, pfx ++ "/" ++ p, mime, "public-read", contentEncodingOf enc⟩
        with e | resp
      · cases e
        rw [writeBytes_create_err bucket pfx client p body mime enc hlen hcreate]
        simp
      · rw [writeBytes_multi_ok bucket pfx client p body mime enc resp hlen hcreate]
        simp only
        rcases hloop : (uploadPartsLoop client bucket resp.uploadId resp.key body 0 1 []).2
          with ps | _ | c
        · simp only [hloop]
          rcases resp with ⟨uidO, keyO⟩
          rcases uidO with _ | uid
          · simp
          rcases keyO with _ | okey
          · simp
          rcases hcomp : client.completeMultipartUpload ⟨bucket, okey, uid, ps⟩ with e | u <;>
            simp [hcomp]
        · simp only [hloop]
          simp
        · simp only [hloop]
          have hnp := uploadPartsLoop_no_pathPanic client bucket body.length
            resp.uploadId resp.key body 0 1 [] (by omega)
          rw [hloop] at hnp
          intro heq
          have heq2 : WriteOutcome.panicked c
              = WriteOutcome.panicked PanicCause.pathNotText := heq
          injection heq2 with hc
          rw [hc] at hnp
          exact hnp rfl
    · rw [writeBytes_single bucket pfx client p body mime enc (by omega)]
      simp only
      rcases hput : client.putObject
          ⟨bucket, pfx ++ "/" ++ p, mime, "public-read", contentEncodingOf enc, body⟩
        with e | u <;> simp [hput]
  · intro bucket pfx client body mime enc
    exact writeBytes_path_none bucket pfx client body mime enc

/-- C9 witness: outcome is not the path panic at a concrete call. -/
theorem claim9_witness :
    (writeBytes "b" "pre" clientAllOk (some "path") [0] "text" .plain).outcome
      ≠ .panicked .pathNotText :=
  claim9_path_unwrap.1 "b" "pre" clientAllOk "path" [0] "text" .plain

/-- C2: on the multipart path with a successfully initiated session and
all part uploads succeeding, the issued part-upload requests carry, in
order, exactly the chunks of the body: `ceil(N / 20 MiB)` of them, all
but the last exactly 20 MiB, the last `N mod 20 MiB` (or 20 MiB when
divisible), their concatenation is the body, and the attached part
numbers are exactly `1, 2, ..., partCount`. -/
theorem claim2_chunking (bucket pfx : String) (client : S3Client) (p : String)
    (body : List Nat) (mime : String) (enc : EncodingType) (uid okey : String)
    (etagF : UploadPartReq → String)
    (hlen : 50 * 1024 * 1024 ≤ body.length)
    (hcreate : client.createMultipartUpload
        ⟨bucket, pfx ++ "/" ++ p, mime, "public-read", contentEncodingOf enc⟩
      = .ok ⟨some uid, some okey⟩)
    (hsucc : ∀ r, client.uploadPart r = .ok ⟨some (etagF r)⟩) :
    (partCallsOf (writeBytes bucket pfx client (some p) body mime enc).calls).map
        (fun r => r.body) = chunksOf body
    ∧ (partCallsOf (writeBytes bucket pfx client (some p) body mime enc).calls).map
        (fun r => r.partNumber) = List.range' 1 (chunksOf body).length
    ∧ (chunksOf body).flatten = body
    ∧ (chunksOf body).length = (body.length + 20 * 1024 * 1024 - 1) / (20 * 1024 * 1024)
    ∧ (∀ c ∈ (chunksOf body).dropLast, c.length = 20 * 1024 * 1024)
    ∧ (∃ lc, (chunksOf body).getLast? = some lc
        ∧ lc.length = if body.length % (20 * 1024 * 1024) = 0 then 20 * 1024 * 1024
            else body.length % (20 * 1024 * 1024)) := by
  have hne : body ≠ [] := by
    intro h0
    rw [h0] at hlen
    simp only [List.length_nil] at hlen
    omega
  have hpc : partCallsOf (writeBytes bucket pfx client (some p) body mime enc).calls
      = reqsFor bucket uid okey (chunksOf body) 1 := by
    rw [writeBytes_multi_ok_some bucket pfx client p body mime enc uid okey hlen hcreate]
    simp only
    rw [goChunks_succ client bucket uid okey etagF hsucc (chunksOf body) 1 []]
    simp only [List.nil_append]
    rcases hcomp : client.completeMultipartUpload
        ⟨bucket, okey, uid, (reqsFor bucket uid okey (chunksOf body) 1).map
          fun r => ⟨r.partNumber, etagF r⟩⟩ with e | u <;>
      simp only [hcomp] <;>
      rw [partCallsOf_cons_create, partCallsOf_append, partCallsOf_map_upload,
        partCallsOf_cons_complete, partCallsOf_nil, List.append_nil]
  refine ⟨?_, ?_, chunksOf_flatten body, chunksOf_length body,
    chunksOf_dropLast_length body, chunksOf_getLast body hne⟩
  · rw [hpc, reqsFor_map_body]
  · rw [hpc, reqsFor_map_partNumber]

/-- C2 witness: the chunking facts applied at a 50 MiB body. -/
theorem claim2_witness :
    (∀ r : UploadPartReq, clientAllOk.uploadPart r = .ok ⟨some "etag-1"⟩)
    ∧ 50 * 1024 * 1024 ≤ (List.replicate (50 * 1024 * 1024) (0 : Nat)).length
    ∧ (partCallsOf (writeBytes "b" "pre" clientAllOk (some "path")
          (List.replicate (50 * 1024 * 1024) (0 : Nat)) "text" .plain).calls).map
        (fun r => r.body) = chunksOf (List.replicate (50 * 1024 * 1024) (0 : Nat)) :=
  ⟨fun _ => rfl, by rw [List.length_replicate],
   (claim2_chunking "b" "pre" clientAllOk "path"
     (List.replicate (50 * 1024 * 1024) (0 : Nat)) "text" .plain "uid-1" "key-1"
     (fun _ => "etag-1") (by rw [List.length_replicate]) rfl (fun _ => rfl)).1⟩

theorem completeCallsOf_eq_nil (l : List S3Call)
    (h : ∀ c ∈ l, ∃ r, c = S3Call.uploadPart r) : completeCallsOf l = [] := by
  induction l with
  | nil => rfl
  | cons c rest ih =>
    obtain ⟨r, hr⟩ := h c (List.mem_cons_self c rest)
    subst hr
    rw [completeCallsOf_cons_upload]
    exact ih fun c hc => h c (List.mem_cons_of_mem _ hc)

/-- C3: on the multipart path with a successfully initiated session,
exactly one completion request is issued when and only when every issued
part upload succeeded (returning an ETag); the completion request's part
list pairs each issued part's number with the ETag the service returned
for it, in ascending part-number order `1, 2, ...` with no gaps. -/
theorem claim3_completion (bucket pfx : String) (client : S3Client) (p : String)
    (body : List Nat) (mime : String) (enc : EncodingType) (uid okey : String)
    (hlen : 50 * 1024 * 1024 ≤ body.length)
    (hcreate : client.createMultipartUpload
        ⟨bucket, pfx ++ "/" ++ p, mime, "public-read", contentEncodingOf enc⟩
      = .ok ⟨some uid, some okey⟩) :
    ((completeCallsOf (writeBytes bucket pfx client (some p) body mime enc).calls).length = 1
      ↔ ∀ r ∈ partCallsOf (writeBytes bucket pfx client (some p) body mime enc).calls,
          ∃ t, client.uploadPart r = .ok ⟨some t⟩)
    ∧ ∀ creq ∈ completeCallsOf (writeBytes bucket pfx client (some p) body mime enc).calls,
        creq.parts = (partCallsOf (writeBytes bucket pfx client (some p) body mime enc).calls).map
          (fun r => ⟨r.partNumber, etagOf client r⟩)
        ∧ creq.parts.map (fun cp => cp.partNumber)
            = List.range' 1 (partCallsOf (writeBytes bucket pfx client (some p) body mime enc).calls).length := by
  rw [writeBytes_multi_ok_some bucket pfx client p body mime enc uid okey hlen hcreate]
  simp only
  have hiff := goChunks_done_iff client bucket uid okey (chunksOf body) 1 []
  have hallup : ∀ c ∈ (goChunks client bucket uid okey (chunksOf body) 1 []).1,
      ∃ r, c = S3Call.uploadPart r := by
    intro c hc
    obtain ⟨r, hcr, _⟩ := goChunks_calls client bucket uid okey (chunksOf body) 1 [] c hc
    exact ⟨r, hcr⟩
  rcases hloop : (goChunks client bucket uid okey (chunksOf body) 1 []).2 with ps | _ | c
  · obtain ⟨hcalls, hps⟩ := goChunks_done client bucket uid okey (chunksOf body) 1 [] ps hloop
    simp only [hloop]
    rcases hcomp : client.completeMultipartUpload ⟨bucket, okey, uid, ps⟩ with e | u <;>
      simp only [hcomp] <;>
      · rw [completeCallsOf_cons_create, completeCallsOf_append,
          completeCallsOf_eq_nil _ hallup, completeCallsOf_cons_complete,
          completeCallsOf_nil, partCallsOf_cons_create, partCallsOf_append,
          partCallsOf_cons_complete, partCallsOf_nil, List.append_nil, List.nil_append]
        constructor
        · constructor
          · intro _ r hr
            rw [hloop] at hiff
            refine hiff.1 ⟨ps, rfl⟩ r ?_
            rw [hcalls, partCallsOf_map_upload]
            rw [hcalls, partCallsOf_map_upload] at hr
            exact hr
          · intro _
            simp
        · intro creq hcreq
          simp only [List.mem_singleton] at hcreq
          subst hcreq
          simp only
          rw [hcalls, partCallsOf_map_upload]
          constructor
          · rw [hps, List.nil_append]
          · rw [hps, List.nil_append, List.map_map]
            have : ((fun cp => cp.partNumber) ∘ fun r =>
                (⟨r.partNumber, etagOf client r⟩ : CompletedPart))
                = fun r => r.partNumber := rfl
            rw [this, reqsFor_map_partNumber, reqsFor_length]
  · simp only [hloop]
    rw [completeCallsOf_cons_create, completeCallsOf_eq_nil _ hallup]
    constructor
    · constructor
      · intro h1
        simp at h1
      · intro hall
        rw [hloop] at hiff
        obtain ⟨ps, hps⟩ := hiff.2 (by
          intro r hr
          refine hall r ?_
          rw [partCallsOf_cons_create]
          exact hr)
        exact absurd hps (by simp)
    · intro creq hcreq
      exact absurd hcreq (List.not_mem_nil creq)
  · simp only [hloop]
    rw [completeCallsOf_cons_create, completeCallsOf_eq_nil _ hallup]
    constructor
    · constructor
      · intro h1
        simp at h1
      · intro hall
        rw [hloop] at hiff
        obtain ⟨ps, hps⟩ := hiff.2 (by
          intro r hr
          refine hall r ?_
          rw [partCallsOf_cons_create]
          exact hr)
        exact absurd hps (by simp)
    · intro creq hcreq
      exact absurd hcreq (List.not_mem_nil creq)

/-- C3 witness: with an all-success client at a 50 MiB body, the
equivalence is applied at a concrete run. -/
theorem claim3_witness :
    (50 * 1024 * 1024 ≤ (List.replicate (50 * 1024 * 1024) (0 : Nat)).length)
    ∧ ((completeCallsOf (writeBytes "b" "pre" clientAllOk (some "path")
          (List.replicate (50 * 1024 * 1024) (0 : Nat)) "text" .plain).calls).length = 1
      ↔ ∀ r ∈ partCallsOf (writeBytes "b" "pre" clientAllOk (some "path")
          (List.replicate (50 * 1024 * 1024) (0 : Nat)) "text" .plain).calls,
          ∃ t, clientAllOk.uploadPart r = .ok ⟨some t⟩) :=
  ⟨by rw [List.length_replicate],
   (claim3_completion "b" "pre" clientAllOk "path"
     (List.replicate (50 * 1024 * 1024) (0 : Nat)) "text" .plain "uid-1" "key-1"
     (by rw [List.length_replicate]) rfl).1⟩

/-- C4: a failed initiate returns the error before any part upload; and
when the `j`-th part upload fails, the trace is exactly the create call
followed by the first `j` part uploads — parts `j+1..` are never
uploaded and no completion request is issued — and the call returns a
write failure. -/
theorem claim4_failure_propagation :
    (∀ (bucket pfx : String) (client : S3Client) (p : String) (body : List Nat)
      (mime : String) (enc : EncodingType), 50 * 1024 * 1024 ≤ body.length →
      client.createMultipartUpload
          ⟨bucket, pfx ++ "/" ++ p, mime, "public-read", contentEncodingOf enc⟩
        = .error () →
      writeBytes bucket pfx client (some p) body mime enc
        = ⟨[S3Call.createMultipartUpload
            ⟨bucket, pfx ++ "/" ++ p, mime, "public-read", contentEncodingOf enc⟩],
           .writeFailure⟩)
    ∧ (∀ (bucket pfx : String) (client : S3Client) (p : String) (body : List Nat)
      (mime : String) (enc : EncodingType) (uid okey : String) (j : Nat),
      50 * 1024 * 1024 ≤ body.length →
      client.createMultipartUpload
          ⟨bucket, pfx ++ "/" ++ p, mime, "public-read", contentEncodingOf enc⟩
        = .ok ⟨some uid, some okey⟩ →
      1 ≤ j → j ≤ (chunksOf body).length →
      (∀ r : UploadPartReq, r.partNumber < j → ∃ t, client.uploadPart r = .ok ⟨some t⟩) →
      (∀ r : UploadPartReq, r.partNumber = j → client.uploadPart r = .error ()) →
      (writeBytes bucket pfx client (some p) body mime enc).calls
          = S3Call.createMultipartUpload
              ⟨bucket, pfx ++ "/" ++ p, mime, "public-read", contentEncodingOf enc⟩ ::
            ((reqsFor bucket uid okey (chunksOf body) 1).take j).map S3Call.uploadPart
        ∧ (writeBytes bucket pfx client (some p) body mime enc).outcome = .writeFailure
        ∧ (∀ r : UploadPartReq,
            S3Call.uploadPart r ∈ (writeBytes bucket pfx client (some p) body mime enc).calls →
            r.partNumber ≤ j)
        ∧ ∀ r : CompleteMultipartUploadReq,
            S3Call.completeMultipartUpload r
              ∉ (writeBytes bucket pfx client (some p) body mime enc).calls) := by
  constructor
  · intro bucket pfx client p body mime enc hlen hcreate
    exact writeBytes_create_err bucket pfx client p body mime enc hlen hcreate
  · intro bucket pfx client p body mime enc uid okey j hlen hcreate hj1 hj2 hsucc hfail
    rw [writeBytes_multi_ok_some bucket pfx client p body mime enc uid okey hlen hcreate]
    simp only
    have hloop := goChunks_fail client bucket uid okey j hsucc hfail (chunksOf body) 1 []
      hj1 (by omega)
    have hj11 : j + 1 - 1 = j := by omega
    rw [hj11] at hloop
    rw [hloop]
    simp only
    refine ⟨trivial, trivial, ?_, ?_⟩
    · intro r hr
      rcases List.mem_cons.1 hr with hr | hr
      · exact absurd hr (by simp)
      · obtain ⟨a, ha, har⟩ := List.mem_map.1 hr
        obtain ⟨h1, h2⟩ := reqsFor_take_mem bucket uid okey (chunksOf body) 1 j a ha
        cases har
        omega
    · intro r hr
      rcases List.mem_cons.1 hr with hr | hr
      · exact absurd hr (by simp)
      · obtain ⟨a, _, har⟩ := List.mem_map.1 hr
        exact absurd har (by simp)

/-- C4 witness: with a client failing at part 2 of a 50 MiB body (three
chunks), the trace stops after two part uploads and no completion is
issued. -/
theorem claim4_witness :
    (1 ≤ 2 ∧ 2 ≤ (chunksOf (List.replicate (50 * 1024 * 1024) (0 : Nat))).length)
    ∧ ((writeBytes "b" "pre" clientFailPart2 (some "path")
          (List.replicate (50 * 1024 * 1024) (0 : Nat)) "text" .plain).outcome
        = .writeFailure
      ∧ ∀ r : CompleteMultipartUploadReq,
          S3Call.completeMultipartUpload r
            ∉ (writeBytes "b" "pre" clientFailPart2 (some "path")
                (List.replicate (50 * 1024 * 1024) (0 : Nat)) "text" .plain).calls) :=
  have happ := claim4_failure_propagation.2 "b" "pre" clientFailPart2 "path"
    (List.replicate (50 * 1024 * 1024) (0 : Nat)) "text" .plain "uid-1" "key-1" 2
    (by rw [List.length_replicate]) rfl (by norm_num)
    (by rw [chunksOf_length, List.length_replicate]; norm_num [chunkSize])
    (fun r hr => ⟨"etag-1", by
      simp only [clientFailPart2]
      rw [if_neg (by omega)]⟩)
    (fun r hr => by
      simp only [clientFailPart2]
      rw [if_pos hr])
  ⟨⟨by norm_num, by rw [chunksOf_length, List.length_replicate]; norm_num [chunkSize]⟩,
   happ.2.1, happ.2.2.2⟩

theorem uploadPartsLoop_none (client : S3Client) (bucket : String)
    (uploadId uploadKey : Option String) (body : List Nat) (start part : Nat)
    (parts : List CompletedPart)
    (hno : uploadId = none ∨ uploadKey = none) (hlt : start < body.length) :
    uploadPartsLoop client bucket uploadId uploadKey body start part parts
      = ([], .panicked .missingField) := by
  rw [uploadPartsLoop, dif_pos hlt]
  rcases uploadId with _ | uid
  · rcases uploadKey with _ | k <;> rfl
  · rcases uploadKey with _ | k
    · rfl
    · rcases hno with h | h <;> exact absurd h (by simp)

/-- C10: if the initiate response lacks the upload id or the key, or the
response to the `j`-th part upload carries no ETag, `write_bytes`
panics (missing-field `unwrap`) instead of returning a write failure;
and when both fields are present, every part upload and every completion
request reference exactly the upload id and key the initiate call
returned. -/
theorem claim10_optional_fields :
    (∀ (bucket pfx : String) (client : S3Client) (p : String) (body : List Nat)
      (mime : String) (enc : EncodingType) (resp : CreateMultipartUploadResp),
      50 * 1024 * 1024 ≤ body.length →
      client.createMultipartUpload
          ⟨bucket, pfx ++ "/" ++ p, mime, "public-read", contentEncodingOf enc⟩
        = .ok resp →
      resp.uploadId = none ∨ resp.key = none →
      (writeBytes bucket pfx client (some p) body mime enc).outcome
        = .panicked .missingField)
    ∧ (∀ (bucket pfx : String) (client : S3Client) (p : String) (body : List Nat)
      (mime : String) (enc : EncodingType) (uid okey : String) (j : Nat),
      50 * 1024 * 1024 ≤ body.length →
      client.createMultipartUpload
          ⟨bucket, pfx ++ "/" ++ p, mime, "public-read", contentEncodingOf enc⟩
        = .ok ⟨some uid, some okey⟩ →
      1 ≤ j → j ≤ (chunksOf body).length →
      (∀ r : UploadPartReq, r.partNumber < j → ∃ t, client.uploadPart r = .ok ⟨some t⟩) →
      (∀ r : UploadPartReq, r.partNumber = j → client.uploadPart r = .ok ⟨none⟩) →
      (writeBytes bucket pfx client (some p) body mime enc).outcome
        = .panicked .missingField)
    ∧ (∀ (bucket pfx : String) (client : S3Client) (p : String) (body : List Nat)
      (mime : String) (enc : EncodingType) (uid okey : String),
      50 * 1024 * 1024 ≤ body.length →
      client.createMultipartUpload
          ⟨bucket, pfx ++ "/" ++ p, mime, "public-read", contentEncodingOf enc⟩
        = .ok ⟨some uid, some okey⟩ →
      (∀ r : UploadPartReq,
        S3Call.uploadPart r ∈ (writeBytes bucket pfx client (some p) body mime enc).calls →
        r.uploadId = uid ∧ r.key = okey)
      ∧ ∀ r : CompleteMultipartUploadReq,
          S3Call.completeMultipartUpload r
            ∈ (writeBytes bucket pfx client (some p) body mime enc).calls →
          r.uploadId = uid ∧ r.key = okey) := by
  refine ⟨?_, ?_, ?_⟩
  · intro bucket pfx client p body mime enc resp hlen hcreate hno
    rw [writeBytes_multi_ok bucket pfx client p body mime enc resp hlen hcreate]
    simp only
    rw [uploadPartsLoop_none client bucket resp.uploadId resp.key body 0 1 [] hno
      (by omega)]
  · intro bucket pfx client p body mime enc uid okey j hlen hcreate hj1 hj2 hsucc hnone
    rw [writeBytes_multi_ok_some bucket pfx client p body mime enc uid okey hlen hcreate]
    simp only
    rw [goChunks_etagNone client bucket uid okey j hsucc hnone (chunksOf body) 1 []
      hj1 (by omega)]
  · intro bucket pfx client p body mime enc uid okey hlen hcreate
    rw [writeBytes_multi_ok_some bucket pfx client p body mime enc uid okey hlen hcreate]
    simp only
    have hloopmem : ∀ r : UploadPartReq,
        S3Call.uploadPart r ∈ (goChunks client bucket uid okey (chunksOf body) 1 []).1 →
        r.uploadId = uid ∧ r.key = okey := by
      intro r hr
      obtain ⟨r2, heq, hmem⟩ :=
        goChunks_calls client bucket uid okey (chunksOf body) 1 [] _ hr
      injection heq with h
      subst h
      obtain ⟨_, h2, h3, _, _⟩ := reqsFor_mem bucket uid okey (chunksOf body) 1 r hmem
      exact ⟨h3, h2⟩
    rcases hloop : (goChunks client bucket uid okey (chunksOf body) 1 []).2
      with ps | _ | c <;> simp only [hloop]
    · rcases hcomp : client.completeMultipartUpload ⟨bucket, okey, uid, ps⟩ with e | u <;>
        simp only [hcomp] <;>
        · constructor
          · intro r hr
            rcases List.mem_cons.1 hr with hr | hr
            · exact absurd hr (by simp)
            rcases List.mem_append.1 hr with hr | hr
            · exact hloopmem r hr
            · simp only [List.mem_singleton] at hr
              exact absurd hr (by simp)
          · intro r hr
            rcases List.mem_cons.1 hr with hr | hr
            · exact absurd hr (by simp)
            rcases List.mem_append.1 hr with hr | hr
            · obtain ⟨r2, heq, _⟩ :=
                goChunks_calls client bucket uid okey (chunksOf body) 1 [] _ hr
              exact absurd heq (by simp)
            · simp only [List.mem_singleton] at hr
              injection hr with h
              subst h
              exact ⟨rfl, rfl⟩
    · constructor
      · intro r hr
        rcases List.mem_cons.1 hr with hr | hr
        · exact absurd hr (by simp)
        · exact hloopmem r hr
      · intro r hr
        rcases List.mem_cons.1 hr with hr | hr
        · exact absurd hr (by simp)
        · obtain ⟨r2, heq, _⟩ :=
            goChunks_calls client bucket uid okey (chunksOf body) 1 [] _ hr
          exact absurd heq (by simp)
    · constructor
      · intro r hr
        rcases List.mem_cons.1 hr with hr | hr
        · exact absurd hr (by simp)
        · exact hloopmem r hr
      · intro r hr
        rcases List.mem_cons.1 hr with hr | hr
        · exact absurd hr (by simp)
        · obtain ⟨r2, heq, _⟩ :=
            goChunks_calls client bucket uid okey (chunksOf body) 1 [] _ hr
          exact absurd heq (by simp)

/-- C10 witness: the missing-field panics at concrete clients lacking
the upload id and the first ETag. -/
theorem claim10_witness :
    ((writeBytes "b" "pre" clientNoUploadId (some "path")
        (List.replicate (50 * 1024 * 1024) (0 : Nat)) "text" .plain).outcome
      = .panicked .missingField)
    ∧ ((writeBytes "b" "pre" clientNoEtag (some "path")
        (List.replicate (50 * 1024 * 1024) (0 : Nat)) "text" .plain).outcome
      = .panicked .missingField) :=
  ⟨claim10_optional_fields.1 "b" "pre" clientNoUploadId "path"
    (List.replicate (50 * 1024 * 1024) (0 : Nat)) "text" .plain ⟨none, some "key-1"⟩
    (by rw [List.length_replicate]) rfl (Or.inl rfl),
   claim10_optional_fields.2.1 "b" "pre" clientNoEtag "path"
    (List.replicate (50 * 1024 * 1024) (0 : Nat)) "text" .plain "uid-1" "key-1" 1
    (by rw [List.length_replicate]) rfl (by norm_num)
    (by rw [chunksOf_length, List.length_replicate]; norm_num [chunkSize])
    (fun r hr => ⟨"etag-1", by
      simp only [clientNoEtag]
      rw [if_neg (by omega)]⟩)
    (fun r hr => by
      simp only [clientNoEtag]
      rw [if_pos hr])⟩
